import Mathlib

/-!
Verification development for the media-tracker synchronization core.

This file shallowly embeds the repository's storage, sync, backup-merge and
authenticated-transport layers in Lean and proves/refutes the spec's claims
about them.  Translation conventions:

* `Date` values are embedded as `Int` millisecond timestamps (`getTime()`).
* A JavaScript `Map<string, Entry>` is embedded as an association list of
  entries that preserves insertion order, with `Map.set` replacing the value
  in place when the key is present (`setEntry` below).
* `localStorage` is embedded as the `Store` structure holding, per list
  partition, either an absent, an unparsable ("corrupt"), or a parsed payload.
* `async` functions are embedded as pure functions taking the outcome of each
  network round trip as an explicit argument and returning, besides their
  result, the new state and the ordered trace of observable events.
-/

namespace MediaTracker

/-- `MediaType` from `types.ts`. -/
inductive MediaType where
  | movie | tv | game | comic
deriving DecidableEq, Repr

/-- `Status` from `types.ts`. -/
inductive Status where
  | planned | in_progress | completed | paused | dropped | replaying
deriving DecidableEq, Repr

/-- `ListType` from `types.ts`: the two record partitions. -/
inductive ListType where
  | backlog | futurelog
deriving DecidableEq, Repr

/-- `MediaEntry` from `types.ts`.  `createdAt` and `updatedAt` are `Date`
values in the source, embedded as millisecond timestamps. -/
structure MediaEntry where
  id : String
  userId : String
  title : String
  type : MediaType
  status : Status
  year : Int
  list : ListType
  seasonsCompleted : Option Nat := none
  coverUrl : Option String := none
  releaseDate : Option String := none
  completedAt : Option String := none
  createdAt : Int
  updatedAt : Int
deriving DecidableEq, Repr

/-- The draft passed to `addEntry` (`Omit<MediaEntry, 'id' | 'createdAt' |
'userId'>` in `storage.ts`). -/
structure EntryDraft where
  title : String
  type : MediaType
  status : Status
  year : Int
  list : ListType
  seasonsCompleted : Option Nat := none
  coverUrl : Option String := none
  releaseDate : Option String := none
  completedAt : Option String := none
deriving DecidableEq, Repr

/-! ## BackupMergeEngine: `mergeEntries` from `gist.ts`

The source builds a `Map<string, entry>` keyed by `id`: one pass inserting
every local entry, then one pass over the remote entries replacing the stored
version only when the remote `createdAt` is strictly greater, and returns
`Array.from(entryMap.values())`. -/

/-- The identifier list of an entry list. -/
def ids (l : List MediaEntry) : List String :=
  l.map (fun e => e.id)

/-- `entryMap.set(e.id, e)` on an insertion-ordered map embedded as a list:
replace in place if the key is present, otherwise append. -/
def setEntry (m : List MediaEntry) (e : MediaEntry) : List MediaEntry :=
  if m.any (fun x => x.id = e.id) then
    m.map (fun x => if x.id = e.id then e else x)
  else
    m ++ [e]

/-- The first pass of `mergeEntries`: `for (const entry of local)
entryMap.set(entry.id, entry)` starting from an empty map. -/
def fromLocal (l : List MediaEntry) : List MediaEntry :=
  l.foldl setEntry []

/-- One iteration of the second pass of `mergeEntries`: keep the existing
version unless the incoming remote entry's `createdAt` is strictly greater
(or the identifier is new, in which case it is appended). -/
def remoteStep (m : List MediaEntry) (e : MediaEntry) : List MediaEntry :=
  match m.find? (fun x => x.id = e.id) with
  | none => m ++ [e]
  | some ex => if ex.createdAt < e.createdAt then setEntry m e else m

/-- `mergeEntries(local, remote)` from `gist.ts`. -/
def mergeEntries (loc rem : List MediaEntry) : List MediaEntry :=
  rem.foldl remoteStep (fromLocal loc)

/-- `entryMap.get(i)` / membership by identifier. -/
def findById (i : String) (l : List MediaEntry) : Option MediaEntry :=
  l.find? (fun e => e.id = i)

/-! ## LocalCache: `storage.ts` (single-user variant)

`localStorage` holds, under each partition's key, either nothing, a payload
that `JSON.parse` rejects, or a serialized entry array.  `loadEntries` maps
the first two cases to `[]` (the `if (!data) return []` guard and the
`try/catch` around `JSON.parse`); `saveEntries` always stores a parsable
payload. -/

/-- What `localStorage` holds under one partition key. -/
inductive Payload where
  /-- `localStorage.getItem` returned `null`. -/
  | absent
  /-- a payload `JSON.parse` throws on. -/
  | corrupt
  /-- a parsed entry array (`createdAt` revived to `Date`). -/
  | good (entries : List MediaEntry)
deriving DecidableEq, Repr

/-- The persisted per-partition state of `storage.ts`. -/
structure Store where
  backlog : Payload
  futurelog : Payload
deriving DecidableEq, Repr

def getPayload (s : Store) : ListType → Payload
  | ListType.backlog => s.backlog
  | ListType.futurelog => s.futurelog

def setPayload (s : Store) (lt : ListType) (p : Payload) : Store :=
  match lt with
  | ListType.backlog => { s with backlog := p }
  | ListType.futurelog => { s with futurelog := p }

/-- `loadEntries` from `storage.ts`: absent or unparsable payloads load as the
empty set; the function is total, it never throws. -/
def loadEntries (s : Store) (lt : ListType) : List MediaEntry :=
  match getPayload s lt with
  | Payload.absent => []
  | Payload.corrupt => []
  | Payload.good es => es

/-- `saveEntries` from `storage.ts`: atomically replace the partition's
payload with the serialized entry array.  It does not notify anyone. -/
def saveEntries (s : Store) (es : List MediaEntry) (lt : ListType) : Store :=
  setPayload s lt (Payload.good es)

/-- `notifyListeners` from `storage.ts`: re-load the partition from storage
and invoke every currently registered listener with that freshly loaded set.
Listeners are identified by a number; the result records which listener was
invoked with which argument, in order. -/
def notifyListeners (listeners : List Nat) (s : Store) (lt : ListType) :
    List (Nat × List MediaEntry) :=
  listeners.map (fun c => (c, loadEntries s lt))

/-- Stable insertion of an entry into a list sorted by `createdAt`
descending: the inserted element goes before the first strictly older
element, after any equally old one. -/
def insertByCreatedDesc (e : MediaEntry) : List MediaEntry → List MediaEntry
  | [] => [e]
  | x :: xs =>
      if x.createdAt ≤ e.createdAt then e :: x :: xs
      else x :: insertByCreatedDesc e xs

/-- The stable sort `entries.sort((a, b) => b.createdAt.getTime() -
a.createdAt.getTime())` performed by the subscription wrapper in
`subscribeToEntries`. -/
def sortByCreatedDesc (l : List MediaEntry) : List MediaEntry :=
  l.foldr insertByCreatedDesc []

/-- What the callback passed to `subscribeToEntries` receives when the
registered wrapper is invoked with the loaded entry set: the wrapper sorts by
creation date, newest first, before calling it. -/
def subscriberReceives (delivered : List MediaEntry) : List MediaEntry :=
  sortByCreatedDesc delivered

/-- Observable events of the storage and sync layers, in program order. -/
inductive SEv where
  /-- the remote create endpoint is called (`api.createEntry`). -/
  | remoteCreate
  /-- `saveEntries` writes a partition. -/
  | saved (lt : ListType)
  /-- `notifyListeners` fans the given freshly loaded set out to every
  registered listener of the partition. -/
  | notified (lt : ListType) (delivered : List MediaEntry)
  /-- the `media-entries-synced` window event is dispatched. -/
  | synced (lt : ListType)
  /-- the `onSync` callback reports `(listType, hasNewData)`. -/
  | reported (lt : ListType) (hasNewData : Bool)
deriving DecidableEq, Repr

def SEv.isRemoteCreate : SEv → Bool
  | SEv.remoteCreate => true
  | _ => false

def SEv.isSaved : SEv → Bool
  | SEv.saved _ => true
  | _ => false

def SEv.isNotified : SEv → Bool
  | SEv.notified _ _ => true
  | _ => false

/-- `true` when some cache write happens strictly before the remote create
call in the trace. -/
def cacheWriteBeforeRemote (tr : List SEv) : Bool :=
  (tr.takeWhile (fun e => !e.isRemoteCreate)).any SEv.isSaved

/-- `syncEntriesFromCloud` from `storage.ts`: on a fetch result carrying
entries and no error, save them and return them; otherwise fall back to the
locally cached set.  `resp` is the `api.fetchEntries` result, embedded as the
optional entry array and the error flag.  Note that it saves without
notifying. -/
def syncEntriesFromCloud (s : Store) (lt : ListType)
    (resp : Option (List MediaEntry) × Bool) :
    Store × List MediaEntry × List SEv :=
  match resp with
  | (some es, false) => (saveEntries s es lt, es, [SEv.saved lt])
  | _ => (s, loadEntries s lt, [])

/-- `addEntry` from `storage.ts` (single-user variant, lines 365-379): call
the remote create endpoint first and wait; only on success load the cache,
append the server-returned record, save, and notify; on failure throw.
`resp` is the awaited `api.createEntry` outcome (`some` the returned server
record). -/
def addEntry (draft : EntryDraft) (resp : Option MediaEntry) (s : Store) :
    Except String MediaEntry × Store × List SEv :=
  let lt := draft.list
  match resp with
  | some en =>
      let entries := loadEntries s lt
      let s' := saveEntries s (entries ++ [en]) lt
      (Except.ok en, s',
        [SEv.remoteCreate, SEv.saved lt, SEv.notified lt (loadEntries s' lt)])
  | none =>
      (Except.error "Failed to create entry", s, [SEv.remoteCreate])

/-! ## SyncCoordinator: `sync.ts` and the sync manager

`performSync` reads the cursor, queries the incremental endpoint and, only
after a successful response, advances the cursor to the server-reported time.
The sync manager merges the pulled entries into the cache by unconditional
identifier overwrite and dispatches the `media-entries-synced` event whenever
the response carried entries or was the initial pull. -/

/-- The persisted sync cursor (`SyncState` in `sync.ts`): a single
`localStorage` blob shared by both partitions. -/
structure SyncState where
  lastSyncTime : Option String
  deviceId : String
deriving DecidableEq, Repr

/-- The result `performSync` returns on success. -/
structure SyncResult where
  entries : List MediaEntry
  serverTime : String
  isNewData : Bool
  isInitial : Bool
deriving DecidableEq, Repr

/-- Outcome of the `/api/entries/sync` round trip. -/
inductive SyncResp where
  /-- HTTP 200 with the parsed body. -/
  | ok (entries : List MediaEntry) (serverTime : String) (isInitial : Bool)
  /-- response with `!res.ok` (performSync throws before touching state). -/
  | httpErr
  /-- `fetch` itself rejected (network error). -/
  | netErr
deriving DecidableEq, Repr

/-- `performSync` from `sync.ts`: on any failure it throws before
`updateSyncState`, so the cursor is untouched; on success the cursor's
`lastSyncTime` becomes the server-reported time. -/
def performSync (st : SyncState) (resp : SyncResp) :
    Except Unit (SyncResult × SyncState) :=
  match resp with
  | SyncResp.httpErr => Except.error ()
  | SyncResp.netErr => Except.error ()
  | SyncResp.ok entries serverTime isInit =>
      Except.ok
        ({ entries := entries, serverTime := serverTime,
           isNewData := 0 < entries.length, isInitial := isInit },
         { st with lastSyncTime := some serverTime })

/-- The merge inside `syncAll`: `new Map(existing.map(e => [e.id, e]))`
followed by an unconditional `entryMap.set(entry.id, entry)` for every pulled
entry — remote overwrites local for a shared identifier, locally cached
identifiers absent from the response are left untouched. -/
def syncMerge (existing incoming : List MediaEntry) : List MediaEntry :=
  incoming.foldl setEntry (fromLocal existing)

/-- One partition's iteration of `syncAll` from the sync manager: perform the
pull, and only when the response carried entries or was the initial pull,
merge into the cache, save and dispatch the synced event; a thrown failure is
caught and reported through `onSync` with `hasNewData = false`. -/
def syncOne (lt : ListType) (s : Store) (st : SyncState) (resp : SyncResp) :
    Store × SyncState × List SEv :=
  match performSync st resp with
  | Except.error _ => (s, st, [SEv.reported lt false])
  | Except.ok (result, st') =>
      if 0 < result.entries.length ∨ result.isInitial = true then
        let existing := loadEntries s lt
        let merged := syncMerge existing result.entries
        let s' := saveEntries s merged lt
        (s', st',
          [SEv.saved lt, SEv.synced lt, SEv.reported lt result.isNewData])
      else
        (s, st', [SEv.reported lt result.isNewData])

/-! ## Sync manager trigger handling

`startBackgroundSync` installs a 60-second interval that calls `syncAll`
whenever the page is visible, `handleVisibilityChange` calls `syncAll` on the
hidden-to-visible transition, and `syncOnFocus` calls `syncAll` when visible.
None of the three handlers consults any in-flight flag — the module state is
only the interval id and the visibility flag — so every trigger starts a new
pull.  `inFlight` counts the pulls started and not yet completed; an `await`
inside `syncAll` suspends it, letting further triggers run before
completion. -/

/-- Module-level state of the sync manager relevant to trigger handling. -/
structure SyncMgrState where
  visible : Bool
  inFlight : Nat
deriving DecidableEq, Repr

/-- The events the sync manager's module-level handlers react to. -/
inductive Trigger where
  /-- the 60-second interval fires. -/
  | timerTick
  /-- `visibilitychange` with the new visibility value. -/
  | visChange (nowVisible : Bool)
  /-- `syncOnFocus` is invoked. -/
  | focus
  /-- an outstanding `syncAll` run resolves. -/
  | pullComplete
deriving DecidableEq, Repr

/-- One step of the sync manager's trigger handling, transcribed from
`startBackgroundSync`, `handleVisibilityChange` and `syncOnFocus`. -/
def stepTrigger (st : SyncMgrState) : Trigger → SyncMgrState
  | Trigger.timerTick =>
      if st.visible then { st with inFlight := st.inFlight + 1 } else st
  | Trigger.visChange nowVisible =>
      if !st.visible && nowVisible then
        { visible := true, inFlight := st.inFlight + 1 }
      else
        { st with visible := nowVisible }
  | Trigger.focus =>
      if st.visible then { st with inFlight := st.inFlight + 1 } else st
  | Trigger.pullComplete =>
      { st with inFlight := st.inFlight - 1 }

/-- Run a sequence of triggers. -/
def runTriggers (st : SyncMgrState) (ts : List Trigger) : SyncMgrState :=
  ts.foldl stepTrigger st

/-! ## CredentialManager transport: `authenticatedFetch` from `api.ts`

The wrapper attaches the stored access token; on a 401 it refreshes at most
once using the stored refresh token and, when the refresh yields a new access
token, re-issues the original request exactly once with it, returning that
second response unconditionally (even another 401 is returned, never looped
on). -/

/-- Events of one `authenticatedFetch` call, in program order. -/
inductive FEv where
  /-- a fetch without authorization (auth endpoints skip the wrapper). -/
  | plainRequest
  /-- the original request, with the attached bearer token. -/
  | request (tok : String)
  /-- the `POST /auth/refresh` call. -/
  | refreshCall
  /-- the re-issued original request, with the attached bearer token. -/
  | retryRequest (tok : String)
deriving DecidableEq, Repr

def FEv.isRefresh : FEv → Bool
  | FEv.refreshCall => true
  | _ => false

def FEv.isRetry : FEv → Bool
  | FEv.retryRequest _ => true
  | _ => false

def countRefresh (tr : List FEv) : Nat :=
  (tr.filter FEv.isRefresh).length

def countRetry (tr : List FEv) : Nat :=
  (tr.filter FEv.isRetry).length

/-- Outcome of the `POST /auth/refresh` round trip. -/
inductive RefreshOutcome where
  /-- `refreshRes.ok`, body carrying the optional `access_token`. -/
  | succ (tok : Option String)
  /-- `!refreshRes.ok`: tokens cleared, error thrown. -/
  | httpFail
  /-- the refresh fetch rejected: caught, tokens cleared, rethrown. -/
  | thrown
deriving DecidableEq, Repr

/-- Result of `authenticatedFetch`: the returned response status or the
thrown error, the access and refresh tokens left in storage, and the trace of
requests issued. -/
structure AuthFetchResult where
  outcome : Except String Nat
  access : Option String
  refresh : Option String
  events : List FEv
deriving Repr

/-- `authenticatedFetch` from `api.ts`, transcribed branch by branch.
`access` and `rtok` are the stored access and refresh tokens, `status1` the
status of the original request's response, `rout` the refresh outcome and
`status2` the status of the re-issued request's response (consumed only when
a retry happens). -/
def authenticatedFetch (isAuthEndpoint : Bool) (access rtok : Option String)
    (status1 : Nat) (rout : RefreshOutcome) (status2 : Nat) :
    AuthFetchResult :=
  if isAuthEndpoint then
    { outcome := Except.ok status1, access := access, refresh := rtok,
      events := [FEv.plainRequest] }
  else
    match access with
    | none =>
        { outcome := Except.error "No authentication token", access := access,
          refresh := rtok, events := [] }
    | some tok =>
        if status1 ≠ 401 then
          { outcome := Except.ok status1, access := access, refresh := rtok,
            events := [FEv.request tok] }
        else
          match rtok with
          | none =>
              { outcome := Except.error "Session expired", access := none,
                refresh := none, events := [FEv.request tok] }
          | some rt =>
              match rout with
              | RefreshOutcome.succ (some newTok) =>
                  { outcome := Except.ok status2, access := some newTok,
                    refresh := some rt,
                    events := [FEv.request tok, FEv.refreshCall,
                      FEv.retryRequest newTok] }
              | RefreshOutcome.succ none =>
                  { outcome := Except.ok status1, access := some tok,
                    refresh := some rt,
                    events := [FEv.request tok, FEv.refreshCall] }
              | RefreshOutcome.httpFail =>
                  { outcome := Except.error "Token refresh failed",
                    access := none, refresh := none,
                    events := [FEv.request tok, FEv.refreshCall] }
              | RefreshOutcome.thrown =>
                  { outcome := Except.error "Token refresh failed",
                    access := none, refresh := none,
                    events := [FEv.request tok, FEv.refreshCall] }

def SEv.isSynced : SEv → Bool
  | SEv.synced _ => true
  | _ => false

/-! ## Concrete sample data for witnesses and counterexamples -/

/-- A sample entry with the given identifier, `createdAt` and `updatedAt`. -/
def mkEnt (i : String) (c u : Int) : MediaEntry :=
  { id := i, userId := "u", title := i, type := MediaType.movie,
    status := Status.planned, year := 2021, list := ListType.backlog,
    createdAt := c, updatedAt := u }

/-- Local version of record `r1`: created later, last modified earlier. -/
def entA1 : MediaEntry := mkEnt "r1" 10 5

/-- Remote version of record `r1`: created earlier, last modified later. -/
def entB1 : MediaEntry := mkEnt "r1" 3 20

/-- Remote version of record `r1` with the later `createdAt`. -/
def entB2 : MediaEntry := mkEnt "r1" 20 20

/-- Remote version of record `r1` tying `entA1` on `createdAt`. -/
def entB3 : MediaEntry := mkEnt "r1" 10 20

/-- Two versions of record `x` inside one list (duplicate identifier). -/
def dupX1 : MediaEntry := mkEnt "x" 5 5

def dupX2 : MediaEntry := mkEnt "x" 3 3

/-- Two records with distinct identifiers and timestamps. -/
def entP0 : MediaEntry := mkEnt "p" 1 1

def entQ0 : MediaEntry := mkEnt "q" 2 2

/-- Entries whose stored order disagrees with creation-date order. -/
def entOld : MediaEntry := mkEnt "o" 1 1

def entNew : MediaEntry := mkEnt "n" 2 2

/-- A server-confirmed record as returned by the create endpoint. -/
def entSrv : MediaEntry := mkEnt "srv-1" 100 100

/-- A sample draft for `addEntry`. -/
def draft0 : EntryDraft :=
  { title := "Dune", type := MediaType.movie, status := Status.planned,
    year := 2021, list := ListType.backlog }

/-- An empty store. -/
def store0 : Store := { backlog := Payload.absent, futurelog := Payload.absent }

/-- A store already caching exactly `entP0` in the backlog. -/
def storeP : Store :=
  { backlog := Payload.good [entP0], futurelog := Payload.absent }

/-- A store whose backlog payload is unparsable. -/
def storeC : Store :=
  { backlog := Payload.corrupt, futurelog := Payload.good [entP0] }

/-- A sync cursor before any successful pull. -/
def syncSt0 : SyncState := { lastSyncTime := none, deviceId := "device-1" }

/-! ## Shape of the remote pass

`Upd x y` says the remote pass may have replaced `x` by `y` in place: same
identifier, and either unchanged or strictly newer `createdAt`.  `UpdExt m0 m`
says `m` is `m0` with some values so replaced and some fresh-identifier
entries appended — the invariant every intermediate map of the remote pass
keeps relative to the map it started from. -/

def Upd (x y : MediaEntry) : Prop :=
  y.id = x.id ∧ (y = x ∨ x.createdAt < y.createdAt)

def UpdExt (m0 m : List MediaEntry) : Prop :=
  ∃ us ext, m = us ++ ext ∧ List.Forall₂ Upd m0 us ∧
    (∀ e ∈ ext, e.id ∉ ids m0) ∧ (ids ext).Nodup

/-! ## Lemmas about the merge map -/

theorem mem_ids {l : List MediaEntry} {i : String} :
    i ∈ ids l ↔ ∃ e, e ∈ l ∧ e.id = i := by
  simp [ids, List.mem_map]

theorem any_id (m : List MediaEntry) (i : String) :
    (m.any (fun x => x.id = i) = true) ↔ i ∈ ids m := by
  simp [List.any_eq_true, mem_ids]

theorem eq_of_mem_of_id_eq {l : List MediaEntry} (hnd : (ids l).Nodup)
    {x y : MediaEntry} (hx : x ∈ l) (hy : y ∈ l) (h : x.id = y.id) : x = y :=
  List.inj_on_of_nodup_map (by simpa [ids] using hnd) hx hy h

theorem findById_eq_some_of_mem {l : List MediaEntry} (hnd : (ids l).Nodup)
    {e : MediaEntry} (he : e ∈ l) : findById e.id l = some e := by
  induction l with
  | nil => cases he
  | cons a t ih =>
      rcases List.mem_cons.1 he with rfl | ht
      · simp [findById]
      · by_cases hid : a.id = e.id
        · exact absurd (mem_ids.2 ⟨e, ht, hid.symm⟩)
            ((List.nodup_cons.1 (by simpa [ids] using hnd)).1)
        · have := ih (by simpa [ids] using (List.nodup_cons.1
            (by simpa [ids] using hnd)).2) ht
          simpa [findById, hid] using this

theorem mem_of_findById {l : List MediaEntry} {i : String} {e : MediaEntry}
    (h : findById i l = some e) : e ∈ l ∧ e.id = i :=
  ⟨List.mem_of_find?_eq_some h, by simpa using List.find?_some h⟩

theorem findById_eq_none {l : List MediaEntry} {i : String} :
    findById i l = none ↔ i ∉ ids l := by
  simp [findById, List.find?_eq_none, mem_ids]

theorem ids_setEntry_mem {m : List MediaEntry} {e : MediaEntry}
    (h : e.id ∈ ids m) : ids (setEntry m e) = ids m := by
  unfold setEntry
  rw [if_pos ((any_id m e.id).2 h)]
  unfold ids
  rw [List.map_map]
  exact List.map_congr_left (fun x _ => by
    by_cases hx : x.id = e.id <;> simp [hx])

theorem ids_setEntry_not_mem {m : List MediaEntry} {e : MediaEntry}
    (h : e.id ∉ ids m) : ids (setEntry m e) = ids m ++ [e.id] := by
  unfold setEntry
  rw [if_neg (fun hc => h ((any_id m e.id).1 hc))]
  simp [ids]

theorem findById_map_repl_self {m : List MediaEntry} (e : MediaEntry)
    (h : e.id ∈ ids m) :
    findById e.id (m.map (fun x => if x.id = e.id then e else x)) = some e := by
  induction m with
  | nil => simp [ids] at h
  | cons a t ih =>
      by_cases ha : a.id = e.id
      · simp [findById, ha]
      · have ht : e.id ∈ ids t := by
          rcases mem_ids.1 h with ⟨x, hx, hxi⟩
          rcases List.mem_cons.1 hx with rfl | hxt
          · exact absurd hxi ha
          · exact mem_ids.2 ⟨x, hxt, hxi⟩
        simpa [findById, ha] using ih ht

theorem findById_map_repl_ne {m : List MediaEntry} (e : MediaEntry)
    {i : String} (hne : e.id ≠ i) :
    findById i (m.map (fun x => if x.id = e.id then e else x)) =
      findById i m := by
  induction m with
  | nil => simp [findById]
  | cons a t ih =>
      by_cases ha : a.id = e.id
      · have hai : ¬ a.id = i := fun hc => hne (ha ▸ hc)
        simpa [findById, ha, hne, hai] using ih
      · by_cases hai : a.id = i
        · have hie : ¬ i = e.id := fun hc => hne hc.symm
          simp [findById, ha, hai, hie]
        · simpa [findById, ha, hai] using ih

theorem findById_setEntry_self (m : List MediaEntry) (e : MediaEntry) :
    findById e.id (setEntry m e) = some e := by
  unfold setEntry
  by_cases h : e.id ∈ ids m
  · rw [if_pos ((any_id m e.id).2 h)]
    exact findById_map_repl_self e h
  · rw [if_neg (fun hc => h ((any_id m e.id).1 hc))]
    have hm : findById e.id m = none := findById_eq_none.2 h
    simp only [findById] at hm ⊢
    simp [List.find?_append, hm]

theorem findById_setEntry_ne (m : List MediaEntry) (e : MediaEntry)
    {i : String} (hne : e.id ≠ i) :
    findById i (setEntry m e) = findById i m := by
  unfold setEntry
  split
  · exact findById_map_repl_ne e hne
  · simp only [findById]
    simp [List.find?_append, hne]

theorem findById_eq_find? (m : List MediaEntry) (e : MediaEntry) :
    m.find? (fun x => x.id = e.id) = findById e.id m := rfl

theorem ids_remoteStep_of_mem {m : List MediaEntry} {e : MediaEntry}
    (h : e.id ∈ ids m) : ids (remoteStep m e) = ids m := by
  rcases hf : m.find? (fun x => x.id = e.id) with _ | ex
  · exact absurd h (findById_eq_none.1 hf)
  · simp only [remoteStep, hf]
    split
    · exact ids_setEntry_mem h
    · rfl

theorem ids_remoteStep_of_not_mem {m : List MediaEntry} {e : MediaEntry}
    (h : e.id ∉ ids m) : ids (remoteStep m e) = ids m ++ [e.id] := by
  rcases hf : m.find? (fun x => x.id = e.id) with _ | ex
  · simp only [remoteStep, hf]
    simp [ids]
  · have hs : findById e.id m = some ex := hf
    have hmem := mem_of_findById hs
    exact absurd (mem_ids.2 ⟨ex, hmem.1, hmem.2⟩) h

theorem nodup_ids_remoteStep {m : List MediaEntry} (h : (ids m).Nodup)
    (e : MediaEntry) : (ids (remoteStep m e)).Nodup := by
  by_cases hm : e.id ∈ ids m
  · rw [ids_remoteStep_of_mem hm]; exact h
  · rw [ids_remoteStep_of_not_mem hm]
    rw [List.nodup_append]
    exact ⟨h, List.nodup_singleton _, by simpa [List.disjoint_singleton]⟩

theorem findById_remoteStep (m : List MediaEntry) (e : MediaEntry)
    (i : String) :
    findById i (remoteStep m e) =
      if e.id = i then
        match findById i m with
        | none => some e
        | some ex =>
            if ex.createdAt < e.createdAt then some e else some ex
      else findById i m := by
  rcases hf : m.find? (fun x => x.id = e.id) with _ | ex
  · have hn : findById e.id m = none := hf
    simp only [remoteStep, hf]
    by_cases hei : e.id = i
    · subst hei
      rw [if_pos rfl, hn]
      simp only [findById] at hn ⊢
      simp [List.find?_append, hn]
    · rw [if_neg hei]
      simp only [findById]
      simp [List.find?_append, hei]
  · have hs : findById e.id m = some ex := hf
    simp only [remoteStep, hf]
    by_cases hei : e.id = i
    · subst hei
      rw [if_pos rfl, hs]
      show findById e.id (if ex.createdAt < e.createdAt then setEntry m e else m) =
        if ex.createdAt < e.createdAt then some e else some ex
      split_ifs with hlt
      · exact findById_setEntry_self m e
      · exact hs
    · rw [if_neg hei]
      split_ifs with hlt
      · exact findById_setEntry_ne m e hei
      · rfl

theorem nodup_ids_foldl_remoteStep (B : List MediaEntry)
    {m : List MediaEntry} (h : (ids m).Nodup) :
    (ids (B.foldl remoteStep m)).Nodup := by
  induction B generalizing m with
  | nil => exact h
  | cons b bs ih => exact ih (nodup_ids_remoteStep h b)

theorem findById_foldl_remoteStep {B : List MediaEntry}
    (hB : (ids B).Nodup) (m : List MediaEntry) (i : String) :
    findById i (B.foldl remoteStep m) =
      match findById i B, findById i m with
      | none, r => r
      | some b, none => some b
      | some b, some ex =>
          if ex.createdAt < b.createdAt then some b else some ex := by
  induction B generalizing m with
  | nil => simp [findById]
  | cons b bs ih =>
      have hbs : (ids bs).Nodup := (List.nodup_cons.1 (by simpa [ids] using hB)).2
      have hbnotin : b.id ∉ ids bs :=
        (List.nodup_cons.1 (by simpa [ids] using hB)).1
      rw [List.foldl_cons, ih hbs]
      by_cases hbi : b.id = i
      · subst hbi
        have h1 : findById b.id bs = none := findById_eq_none.2 hbnotin
        have h2 : findById b.id (b :: bs) = some b := by simp [findById]
        rw [h1, h2, findById_remoteStep, if_pos rfl]
        rcases findById b.id m with _ | ex
        · rfl
        · rfl
      · have h2 : findById i (b :: bs) = findById i bs := by
          simp [findById, hbi]
        rw [h2, findById_remoteStep, if_neg hbi]

theorem ids_foldl_setEntry_fresh :
    ∀ (l acc : List MediaEntry), (ids l).Nodup →
      (∀ i ∈ ids l, i ∉ ids acc) → l.foldl setEntry acc = acc ++ l := by
  intro l
  induction l with
  | nil => intro acc _ _; simp
  | cons a t ih =>
      intro acc hnd hfresh
      have ha : a.id ∉ ids acc := hfresh a.id (by simp [ids])
      have hstep : setEntry acc a = acc ++ [a] := by
        unfold setEntry
        rw [if_neg (fun hc => ha ((any_id acc a.id).1 hc))]
      have hndt : (ids t).Nodup :=
        (List.nodup_cons.1 (by simpa [ids] using hnd)).2
      have hat : a.id ∉ ids t :=
        (List.nodup_cons.1 (by simpa [ids] using hnd)).1
      have hfresh' : ∀ i ∈ ids t, i ∉ ids (acc ++ [a]) := by
        intro i hi
        have h1 : i ∉ ids acc := hfresh i (by simp [ids]; right; simpa [ids] using hi)
        have h2 : i ≠ a.id := fun hc => hat (hc ▸ hi)
        simp [ids] at h1 ⊢
        constructor
        · exact fun x hx hxi => h1 x hx hxi
        · exact fun hc => h2 hc
      rw [List.foldl_cons, hstep, ih (acc ++ [a]) hndt hfresh']
      simp

theorem fromLocal_eq_self {l : List MediaEntry} (h : (ids l).Nodup) :
    fromLocal l = l := by
  unfold fromLocal
  rw [ids_foldl_setEntry_fresh l [] h (by simp [ids])]
  simp

theorem nodup_ids_setEntry {m : List MediaEntry} (h : (ids m).Nodup)
    (e : MediaEntry) : (ids (setEntry m e)).Nodup := by
  by_cases hm : e.id ∈ ids m
  · rw [ids_setEntry_mem hm]; exact h
  · rw [ids_setEntry_not_mem hm]
    rw [List.nodup_append]
    exact ⟨h, List.nodup_singleton _, by simpa [List.disjoint_singleton]⟩

theorem nodup_ids_fromLocal (l : List MediaEntry) :
    (ids (fromLocal l)).Nodup := by
  unfold fromLocal
  suffices h : ∀ (l acc : List MediaEntry), (ids acc).Nodup →
      (ids (l.foldl setEntry acc)).Nodup by
    exact h l [] (by simp [ids])
  intro l
  induction l with
  | nil => intro acc h; exact h
  | cons a t ih => intro acc h; exact ih _ (nodup_ids_setEntry h a)

theorem nodup_ids_mergeEntries (A B : List MediaEntry) :
    (ids (mergeEntries A B)).Nodup :=
  nodup_ids_foldl_remoteStep B (nodup_ids_fromLocal A)

theorem findById_mergeEntries {A B : List MediaEntry}
    (hA : (ids A).Nodup) (hB : (ids B).Nodup) (i : String) :
    findById i (mergeEntries A B) =
      match findById i B, findById i A with
      | none, r => r
      | some b, none => some b
      | some b, some a =>
          if a.createdAt < b.createdAt then some b else some a := by
  unfold mergeEntries
  rw [fromLocal_eq_self hA] at *
  exact findById_foldl_remoteStep hB A i

theorem mem_iff_findById {l : List MediaEntry} (hnd : (ids l).Nodup)
    {e : MediaEntry} : e ∈ l ↔ findById e.id l = some e := by
  constructor
  · exact findById_eq_some_of_mem hnd
  · exact fun h => (mem_of_findById h).1

/-! ## Idempotence of `mergeEntries` -/

theorem ids_map_repl (l : List MediaEntry) (e : MediaEntry) :
    ids (l.map (fun x => if x.id = e.id then e else x)) = ids l := by
  unfold ids
  rw [List.map_map]
  exact List.map_congr_left (fun x _ => by
    by_cases hx : x.id = e.id <;> simp [hx])

theorem map_repl_eq_self {l : List MediaEntry} {e : MediaEntry}
    (h : ∀ x ∈ l, ¬ x.id = e.id) :
    l.map (fun x => if x.id = e.id then e else x) = l := by
  induction l with
  | nil => rfl
  | cons a t ih =>
      simp only [List.map_cons, if_neg (h a (List.mem_cons_self a t))]
      rw [ih (fun x hx => h x (List.mem_cons_of_mem a hx))]

theorem ids_eq_of_forall2 {m0 us : List MediaEntry}
    (h : List.Forall₂ Upd m0 us) : ids us = ids m0 := by
  induction h with
  | nil => rfl
  | @cons x y xs ys hxy htail ih =>
      simp only [ids, List.map_cons] at ih ⊢
      rw [hxy.1, ih]

theorem nodup_ids_of_updExt {m0 m : List MediaEntry}
    (h0 : (ids m0).Nodup) (h : UpdExt m0 m) : (ids m).Nodup := by
  obtain ⟨us, ext, rfl, hf2, hdisj, hnd⟩ := h
  have hus : ids us = ids m0 := ids_eq_of_forall2 hf2
  have : ids (us ++ ext) = ids us ++ ids ext := by simp [ids]
  rw [this, hus, List.nodup_append]
  refine ⟨h0, hnd, ?_⟩
  intro i hi hic
  rcases mem_ids.1 hic with ⟨e, he, rfl⟩
  exact hdisj e he hi

theorem forall2_upd_map_repl {m0 us : List MediaEntry} {e : MediaEntry}
    (h : List.Forall₂ Upd m0 us)
    (hrepl : ∀ y ∈ us, y.id = e.id → y.createdAt < e.createdAt) :
    List.Forall₂ Upd m0 (us.map (fun x => if x.id = e.id then e else x)) := by
  induction h with
  | nil => exact List.Forall₂.nil
  | @cons x y xs ys hxy htail ih =>
      simp only [List.map_cons]
      refine List.Forall₂.cons ?_
        (ih (fun z hz hzi => hrepl z (List.mem_cons_of_mem _ hz) hzi))
      by_cases hy : y.id = e.id
      · simp only [if_pos hy]
        refine ⟨by rw [← hy]; exact hxy.1, Or.inr ?_⟩
        rcases hxy.2 with rfl | hlt
        · exact hrepl y (List.mem_cons_self _ _) hy
        · exact lt_trans hlt (hrepl y (List.mem_cons_self _ _) hy)
      · simp only [if_neg hy]
        exact hxy

theorem updExt_remoteStep {m0 m : List MediaEntry} (h0 : (ids m0).Nodup)
    (h : UpdExt m0 m) (e : MediaEntry) : UpdExt m0 (remoteStep m e) := by
  have hndm : (ids m).Nodup := nodup_ids_of_updExt h0 h
  obtain ⟨us, ext, rfl, hf2, hdisj, hnd⟩ := h
  have hus : ids us = ids m0 := ids_eq_of_forall2 hf2
  rcases hf : (us ++ ext).find? (fun x => x.id = e.id) with _ | ex
  · have hnone : findById e.id (us ++ ext) = none := hf
    have hnotin : e.id ∉ ids (us ++ ext) := findById_eq_none.1 hnone
    have hids : ids (us ++ ext) = ids us ++ ids ext := by simp [ids]
    rw [hids] at hnotin
    refine ⟨us, ext ++ [e], ?_, hf2, ?_, ?_⟩
    · simp only [remoteStep, hf]
      simp
    · intro z hz
      rcases List.mem_append.1 hz with hz1 | hz2
      · exact hdisj z hz1
      · rw [List.mem_singleton.1 hz2, ← hus]
        exact fun hc => hnotin (List.mem_append.2 (Or.inl hc))
    · have : ids (ext ++ [e]) = ids ext ++ [e.id] := by simp [ids]
      rw [this, List.nodup_append]
      refine ⟨hnd, List.nodup_singleton _, ?_⟩
      intro i hi hic
      rw [List.mem_singleton.1 hic] at hi
      exact hnotin (List.mem_append.2 (Or.inr hi))
  · have hs : findById e.id (us ++ ext) = some ex := hf
    have hexm := mem_of_findById hs
    simp only [remoteStep, hf]
    split_ifs with hlt
    · have hmem : e.id ∈ ids (us ++ ext) :=
        mem_ids.2 ⟨ex, hexm.1, hexm.2⟩
      have hset : setEntry (us ++ ext) e =
          (us ++ ext).map (fun x => if x.id = e.id then e else x) := by
        unfold setEntry
        rw [if_pos ((any_id _ _).2 hmem)]
      rw [hset, List.map_append]
      refine ⟨us.map (fun x => if x.id = e.id then e else x),
        ext.map (fun x => if x.id = e.id then e else x), rfl, ?_, ?_, ?_⟩
      · refine forall2_upd_map_repl hf2 ?_
        intro y hy hyi
        have hy' : y = ex := eq_of_mem_of_id_eq hndm
          (List.mem_append.2 (Or.inl hy)) hexm.1 (hyi.trans hexm.2.symm)
        rw [hy']
        exact hlt
      · intro z hz
        rcases List.mem_map.1 hz with ⟨x, hx, rfl⟩
        have : (if x.id = e.id then e else x).id = x.id := by
          by_cases hxe : x.id = e.id <;> simp [hxe]
        rw [this]
        exact hdisj x hx
      · rw [ids_map_repl]
        exact hnd
    · exact ⟨us, ext, rfl, hf2, hdisj, hnd⟩

theorem updExt_refl (m0 : List MediaEntry) : UpdExt m0 m0 :=
  ⟨m0, [], by simp, List.forall₂_same.2 (fun x _ => ⟨rfl, Or.inl rfl⟩),
    by simp, by simp [ids]⟩

theorem updExt_foldl {m0 : List MediaEntry} (h0 : (ids m0).Nodup)
    (B : List MediaEntry) : UpdExt m0 (B.foldl remoteStep m0) := by
  suffices h : ∀ (C m : List MediaEntry), UpdExt m0 m →
      UpdExt m0 (C.foldl remoteStep m) from h B m0 (updExt_refl m0)
  intro C
  induction C with
  | nil => exact fun m h => h
  | cons b bs ih => exact fun m h => ih _ (updExt_remoteStep h0 h b)

theorem foldl_remoteStep_upd {rest usr : List MediaEntry}
    (hf2 : List.Forall₂ Upd rest usr) :
    ∀ usd : List MediaEntry, (ids (usd ++ rest)).Nodup →
      usr.foldl remoteStep (usd ++ rest) = usd ++ usr := by
  induction hf2 with
  | nil => intro usd _; simp
  | @cons r u rest' usr' hru htail ih =>
      intro usd hnd
      have hidsform : ids (usd ++ r :: rest') =
          ids usd ++ r.id :: ids rest' := by simp [ids]
      have hndl := hidsform ▸ hnd
      have hrid_usd : r.id ∉ ids usd := by
        rw [List.nodup_append] at hndl
        exact fun hc => hndl.2.2 hc (List.mem_cons_self _ _)
      have hrid_rest : r.id ∉ ids rest' := by
        rw [List.nodup_append] at hndl
        exact (List.nodup_cons.1 hndl.2.1).1
      have hu : u.id = r.id := hru.1
      have hfind : (usd ++ r :: rest').find? (fun x => x.id = u.id) = some r := by
        rw [List.find?_append]
        have h1 : usd.find? (fun x => x.id = u.id) = none := by
          rw [List.find?_eq_none]
          intro x hx
          simp only [decide_eq_true_eq]
          intro hc
          exact hrid_usd (mem_ids.2 ⟨x, hx, hc.trans hu⟩)
        rw [h1]
        simp [hu]
      have hstep : remoteStep (usd ++ r :: rest') u = usd ++ u :: rest' := by
        simp only [remoteStep, hfind]
        rcases hru.2 with rfl | hlt
        · simp
        · rw [if_pos hlt]
          unfold setEntry
          rw [if_pos]
          · rw [List.map_append]
            have h2 : usd.map (fun x => if x.id = u.id then u else x) = usd :=
              map_repl_eq_self (fun x hx hc =>
                hrid_usd (mem_ids.2 ⟨x, hx, hc.trans hu⟩))
            have h3 : (r :: rest').map (fun x => if x.id = u.id then u else x) =
                u :: rest' := by
              simp only [List.map_cons]
              rw [if_pos hu.symm]
              rw [map_repl_eq_self (fun x hx hc =>
                hrid_rest (mem_ids.2 ⟨x, hx, hc.trans hu⟩))]
            rw [h2, h3]
          · exact (any_id _ _).2 (mem_ids.2
              ⟨r, List.mem_append.2 (Or.inr (List.mem_cons_self _ _)), hu.symm⟩)
      rw [List.foldl_cons, hstep]
      have hnd' : (ids ((usd ++ [u]) ++ rest')).Nodup := by
        have : ids ((usd ++ [u]) ++ rest') = ids usd ++ u.id :: ids rest' := by
          simp [ids]
        rw [this, hu]
        have : ids usd ++ r.id :: ids rest' = ids (usd ++ r :: rest') := by
          simp [ids]
        rw [this]
        exact hnd
      have := ih (usd ++ [u]) (by simpa using hnd')
      simpa using this

theorem foldl_remoteStep_fresh :
    ∀ (ext m : List MediaEntry), (∀ e ∈ ext, e.id ∉ ids m) →
      (ids ext).Nodup → ext.foldl remoteStep m = m ++ ext := by
  intro ext
  induction ext with
  | nil => intro m _ _; simp
  | cons e ext' ih =>
      intro m hfresh hnd
      have hnone : m.find? (fun x => x.id = e.id) = none := by
        rw [List.find?_eq_none]
        intro x hx
        simp only [decide_eq_true_eq]
        intro hc
        exact hfresh e (List.mem_cons_self _ _) (mem_ids.2 ⟨x, hx, hc⟩)
      have hstep : remoteStep m e = m ++ [e] := by
        simp only [remoteStep, hnone]
      rw [List.foldl_cons, hstep]
      have hpair : (∀ x ∈ ext', ¬ x.id = e.id) ∧
          (List.map (fun y => y.id) ext').Nodup := by
        simpa [ids] using hnd
      have hext : ∀ z ∈ ext', z.id ∉ ids (m ++ [e]) := by
        intro z hz hzc
        have hids : ids (m ++ [e]) = ids m ++ [e.id] := by simp [ids]
        rw [hids] at hzc
        rcases List.mem_append.1 hzc with hc1 | hc2
        · exact hfresh z (List.mem_cons_of_mem _ hz) hc1
        · exact hpair.1 z hz (List.mem_singleton.1 hc2)
      have hnd' : (ids ext').Nodup := hpair.2
      rw [ih (m ++ [e]) hext hnd']
      simp

theorem foldl_remoteStep_absorb {m0 m : List MediaEntry}
    (h0 : (ids m0).Nodup) (h : UpdExt m0 m) :
    m.foldl remoteStep m0 = m := by
  obtain ⟨us, ext, rfl, hf2, hdisj, hnd⟩ := h
  rw [List.foldl_append]
  have h1 : us.foldl remoteStep m0 = us := by
    have := foldl_remoteStep_upd hf2 [] (by simpa using h0)
    simpa using this
  rw [h1]
  exact foldl_remoteStep_fresh ext us
    (fun e he => (ids_eq_of_forall2 hf2).symm ▸ hdisj e he) hnd

theorem mergeEntries_idem (A B : List MediaEntry) :
    mergeEntries A (mergeEntries A B) = mergeEntries A B := by
  show (mergeEntries A B).foldl remoteStep (fromLocal A) = mergeEntries A B
  exact foldl_remoteStep_absorb (nodup_ids_fromLocal A)
    (updExt_foldl (nodup_ids_fromLocal A) B)

/-! ## Commutativity of `mergeEntries` up to permutation -/

theorem createdAt_ne_of_nodup_append {A B : List MediaEntry}
    (ht : ((A ++ B).map (fun e => e.createdAt)).Nodup)
    {a b : MediaEntry} (ha : a ∈ A) (hb : b ∈ B) :
    a.createdAt ≠ b.createdAt := by
  rw [List.map_append, List.nodup_append] at ht
  exact fun hc => ht.2.2 (List.mem_map_of_mem _ ha)
    (hc ▸ List.mem_map_of_mem _ hb)

theorem findById_mergeEntries_comm {A B : List MediaEntry}
    (hA : (ids A).Nodup) (hB : (ids B).Nodup)
    (ht : ((A ++ B).map (fun e => e.createdAt)).Nodup) (i : String) :
    findById i (mergeEntries A B) = findById i (mergeEntries B A) := by
  rw [findById_mergeEntries hA hB i, findById_mergeEntries hB hA i]
  rcases hfa : findById i A with _ | a
  · rcases hfb : findById i B with _ | b
    · simp [hfa, hfb]
    · simp [hfa, hfb]
  · rcases hfb : findById i B with _ | b
    · simp [hfa, hfb]
    · simp only [hfa, hfb]
      have hamem := mem_of_findById hfa
      have hbmem := mem_of_findById hfb
      have hne : a.createdAt ≠ b.createdAt :=
        createdAt_ne_of_nodup_append ht hamem.1 hbmem.1
      rcases lt_trichotomy a.createdAt b.createdAt with hlt | heq | hgt
      · rw [if_pos hlt, if_neg (not_lt_of_gt hlt)]
      · exact absurd heq hne
      · rw [if_neg (not_lt_of_gt hgt), if_pos hgt]

theorem mergeEntries_comm_perm {A B : List MediaEntry}
    (hA : (ids A).Nodup) (hB : (ids B).Nodup)
    (ht : ((A ++ B).map (fun e => e.createdAt)).Nodup) :
    (mergeEntries A B).Perm (mergeEntries B A) := by
  have hnd1 : (mergeEntries A B).Nodup :=
    List.Nodup.of_map _ (by simpa [ids] using nodup_ids_mergeEntries A B)
  have hnd2 : (mergeEntries B A).Nodup :=
    List.Nodup.of_map _ (by simpa [ids] using nodup_ids_mergeEntries B A)
  rw [List.perm_ext_iff_of_nodup hnd1 hnd2]
  intro x
  rw [mem_iff_findById (nodup_ids_mergeEntries A B),
    mem_iff_findById (nodup_ids_mergeEntries B A),
    findById_mergeEntries_comm hA hB ht x.id]

/-! ## Storage and sorting lemmas -/

theorem load_save (s : Store) (es : List MediaEntry) (lt : ListType) :
    loadEntries (saveEntries s es lt) lt = es := by
  cases lt <;> rfl

theorem perm_insertByCreatedDesc (e : MediaEntry) (l : List MediaEntry) :
    (insertByCreatedDesc e l).Perm (e :: l) := by
  induction l with
  | nil => exact List.Perm.refl _
  | cons x xs ih =>
      unfold insertByCreatedDesc
      split_ifs with h
      · exact List.Perm.refl _
      · exact (ih.cons x).trans (List.Perm.swap e x xs)

theorem perm_sortByCreatedDesc (l : List MediaEntry) :
    (sortByCreatedDesc l).Perm l := by
  induction l with
  | nil => exact List.Perm.refl _
  | cons x xs ih =>
      show (insertByCreatedDesc x (sortByCreatedDesc xs)).Perm (x :: xs)
      exact (perm_insertByCreatedDesc x _).trans (ih.cons x)

theorem pairwise_insertByCreatedDesc {l : List MediaEntry} (e : MediaEntry)
    (h : l.Pairwise (fun a b => b.createdAt ≤ a.createdAt)) :
    (insertByCreatedDesc e l).Pairwise
      (fun a b => b.createdAt ≤ a.createdAt) := by
  induction l with
  | nil => simp [insertByCreatedDesc]
  | cons x xs ih =>
      unfold insertByCreatedDesc
      rcases List.pairwise_cons.1 h with ⟨hx, hxs⟩
      split_ifs with hc
      · refine List.pairwise_cons.2 ⟨?_, h⟩
        intro y hy
        rcases List.mem_cons.1 hy with rfl | hmem
        · exact hc
        · exact le_trans (hx y hmem) hc
      · refine List.pairwise_cons.2 ⟨?_, ih hxs⟩
        intro y hy
        have hy' := (perm_insertByCreatedDesc e xs).mem_iff.1 hy
        rcases List.mem_cons.1 hy' with rfl | hmem
        · exact le_of_lt (not_le.1 hc)
        · exact hx y hmem

theorem pairwise_sortByCreatedDesc (l : List MediaEntry) :
    (sortByCreatedDesc l).Pairwise
      (fun a b => b.createdAt ≤ a.createdAt) := by
  induction l with
  | nil => simp [sortByCreatedDesc]
  | cons x xs ih => exact pairwise_insertByCreatedDesc x ih

/-! ## Claim theorems -/

/-- C1, counterexample: on a concrete create, the trace of `addEntry` shows
no cache write before the remote create call even though both a remote call
and a cache write happen — the optimistic insert-notify-then-call order the
claim states does not occur. -/
theorem C1_cex :
    cacheWriteBeforeRemote (addEntry draft0 (some entSrv) store0).2.2 = false ∧
    (addEntry draft0 (some entSrv) store0).2.2.any SEv.isRemoteCreate = true ∧
    (addEntry draft0 (some entSrv) store0).2.2.any SEv.isSaved = true := by
  decide

/-- C1 (corrected): `addEntry` calls the remote create endpoint first and
waits; only on success does it append the server-returned record to the
cache, save and notify (with the post-save loaded set); on failure the cache
is untouched and the error is thrown.  No cache write ever precedes the
remote call. -/
theorem C1_remote_call_first (draft : EntryDraft) (s : Store)
    (en : MediaEntry) :
    (addEntry draft (some en) s).2.2 =
      [SEv.remoteCreate, SEv.saved draft.list,
        SEv.notified draft.list (loadEntries s draft.list ++ [en])] ∧
    (addEntry draft (some en) s).2.1 =
      saveEntries s (loadEntries s draft.list ++ [en]) draft.list ∧
    (addEntry draft (some en) s).1 = Except.ok en ∧
    (addEntry draft none s).2.1 = s ∧
    (addEntry draft none s).2.2 = [SEv.remoteCreate] ∧
    cacheWriteBeforeRemote (addEntry draft (some en) s).2.2 = false ∧
    cacheWriteBeforeRemote (addEntry draft none s).2.2 = false := by
  refine ⟨by simp [addEntry, load_save], rfl, rfl, rfl, rfl, rfl, rfl⟩

/-- C2, counterexample: the merge keeps the local version `entA1` although
the remote version `entB1` of the same identifier has the strictly later
last-modified (`updatedAt`) timestamp — the comparison is on `createdAt`,
not on last-modified. -/
theorem C2_cex :
    mergeEntries [entA1] [entB1] = [entA1] ∧
    entA1.updatedAt < entB1.updatedAt ∧
    entB1 ≠ entA1 := by
  decide

/-- C2 (corrected): for identifier-disjoint-free inputs the merge keeps, for
an identifier on both sides, the version with the strictly later `createdAt`
(creation) timestamp — not the later last-modified timestamp — and keeps
one-sided identifiers as-is. -/
theorem C2_merge_keeps_later_createdAt {A B : List MediaEntry}
    (hA : (ids A).Nodup) (hB : (ids B).Nodup) (i : String) :
    (∀ a, a ∈ A → a.id = i → ∀ b, b ∈ B → b.id = i →
      (a.createdAt < b.createdAt →
        findById i (mergeEntries A B) = some b) ∧
      (b.createdAt < a.createdAt →
        findById i (mergeEntries A B) = some a)) ∧
    (i ∉ ids B → ∀ a, a ∈ A → a.id = i →
      findById i (mergeEntries A B) = some a) ∧
    (i ∉ ids A → ∀ b, b ∈ B → b.id = i →
      findById i (mergeEntries A B) = some b) := by
  refine ⟨?_, ?_, ?_⟩
  · intro a ha hai b hb hbi
    have hfa : findById i A = some a := hai ▸ findById_eq_some_of_mem hA ha
    have hfb : findById i B = some b := hbi ▸ findById_eq_some_of_mem hB hb
    constructor
    · intro hlt
      rw [findById_mergeEntries hA hB i, hfa, hfb]
      simp [hlt]
    · intro hlt
      rw [findById_mergeEntries hA hB i, hfa, hfb]
      simp [not_lt_of_gt hlt]
  · intro hiB a ha hai
    have hfa : findById i A = some a := hai ▸ findById_eq_some_of_mem hA ha
    have hfb : findById i B = none := findById_eq_none.2 hiB
    rw [findById_mergeEntries hA hB i, hfa, hfb]
  · intro hiA b hb hbi
    have hfb : findById i B = some b := hbi ▸ findById_eq_some_of_mem hB hb
    have hfa : findById i A = none := findById_eq_none.2 hiA
    rw [findById_mergeEntries hA hB i, hfa, hfb]

/-- C2, witness: instantiating the corrected merge theorem at two concrete
one-entry lists sharing identifier `r1`, where the remote `createdAt` is
later, the merge yields the remote version. -/
theorem C2_witness :
    findById "r1" (mergeEntries [entA1] [entB2]) = some entB2 :=
  ((C2_merge_keeps_later_createdAt (by decide) (by decide) "r1").1
    entA1 (by decide) (by decide) entB2 (by decide) (by decide)).1 (by decide)

/-- C3 (confirmed): `authenticatedFetch` performs at most one refresh call
and at most one retry per original call; with a token attached, a 401
response and a stored refresh token it performs exactly one refresh, and
when the refresh yields a new access token it re-issues the original request
exactly once with that new token — the trace is the same whatever the status
of the retried request, so a second 401 triggers nothing further; a non-401
first response triggers neither refresh nor retry. -/
theorem C3_one_refresh_one_retry (access rtok : Option String)
    (status1 : Nat) (rout : RefreshOutcome) (status2 : Nat) :
    countRefresh
      (authenticatedFetch false access rtok status1 rout status2).events ≤ 1 ∧
    countRetry
      (authenticatedFetch false access rtok status1 rout status2).events ≤ 1 ∧
    (∀ tok rt, access = some tok → rtok = some rt → status1 = 401 →
      countRefresh
        (authenticatedFetch false access rtok status1 rout status2).events
        = 1) ∧
    (∀ tok rt newTok, access = some tok → rtok = some rt → status1 = 401 →
      rout = RefreshOutcome.succ (some newTok) →
      (authenticatedFetch false access rtok status1 rout status2).events =
        [FEv.request tok, FEv.refreshCall, FEv.retryRequest newTok]) ∧
    (status1 ≠ 401 →
      countRefresh
        (authenticatedFetch false access rtok status1 rout status2).events
        = 0 ∧
      countRetry
        (authenticatedFetch false access rtok status1 rout status2).events
        = 0) := by
  rcases access with _ | tok
  · simp [authenticatedFetch, countRefresh, countRetry]
  · by_cases h1 : status1 = 401
    · subst h1
      rcases rtok with _ | rt
      · simp [authenticatedFetch, countRefresh, countRetry,
          FEv.isRefresh, FEv.isRetry, List.filter]
      · rcases rout with tok2 | _ | _
        · rcases tok2 with _ | newTok <;>
            simp [authenticatedFetch, countRefresh, countRetry,
              FEv.isRefresh, FEv.isRetry, List.filter]
        · simp [authenticatedFetch, countRefresh, countRetry,
            FEv.isRefresh, FEv.isRetry, List.filter]
        · simp [authenticatedFetch, countRefresh, countRetry,
            FEv.isRefresh, FEv.isRetry, List.filter]
    · simp [authenticatedFetch, h1, countRefresh, countRetry,
        FEv.isRefresh, FEv.isRetry, List.filter]

/-- C3, witness: a concrete 401 with a stored refresh token and a successful
refresh produces exactly one refresh and one retry carrying the new token,
even though the retried request fails with 401 again. -/
theorem C3_witness :
    countRefresh (authenticatedFetch false (some "a") (some "r") 401
      (RefreshOutcome.succ (some "n")) 401).events = 1 ∧
    (authenticatedFetch false (some "a") (some "r") 401
      (RefreshOutcome.succ (some "n")) 401).events =
      [FEv.request "a", FEv.refreshCall, FEv.retryRequest "n"] :=
  ⟨(C3_one_refresh_one_retry (some "a") (some "r") 401
      (RefreshOutcome.succ (some "n")) 401).2.2.1 "a" "r" rfl rfl rfl,
   (C3_one_refresh_one_retry (some "a") (some "r") 401
      (RefreshOutcome.succ (some "n")) 401).2.2.2.1 "a" "r" "n"
      rfl rfl rfl rfl⟩

/-- C4, counterexample: with all timestamps pairwise distinct, `mergeEntries`
is not commutative as stated: with a duplicated identifier inside one list
the two orders disagree even about which version survives, and with plain
disjoint singletons the two results differ as lists (element order). -/
theorem C4_cex :
    ((([dupX1, dupX2] ++ ([] : List MediaEntry)).map
        (fun e => e.createdAt)).Nodup ∧
      mergeEntries [dupX1, dupX2] [] ≠ mergeEntries [] [dupX1, dupX2]) ∧
    ((([entP0] ++ [entQ0]).map (fun e => e.createdAt)).Nodup ∧
      mergeEntries [entP0] [entQ0] ≠ mergeEntries [entQ0] [entP0]) := by
  decide

/-- C4 (corrected): `merge(A, merge(A, B)) = merge(A, B)` holds for all
record lists; commutativity holds up to permutation of the result, provided
each input list has no duplicated identifier and all timestamps involved are
pairwise distinct. -/
theorem C4_merge_algebra :
    (∀ A B : List MediaEntry,
      mergeEntries A (mergeEntries A B) = mergeEntries A B) ∧
    (∀ A B : List MediaEntry, (ids A).Nodup → (ids B).Nodup →
      ((A ++ B).map (fun e => e.createdAt)).Nodup →
      (mergeEntries A B).Perm (mergeEntries B A)) :=
  ⟨mergeEntries_idem, fun _ _ hA hB ht => mergeEntries_comm_perm hA hB ht⟩

/-- C4, witness: idempotence and commutativity-up-to-permutation at two
concrete singleton lists with distinct identifiers and timestamps. -/
theorem C4_witness :
    mergeEntries [entP0] (mergeEntries [entP0] [entQ0]) =
      mergeEntries [entP0] [entQ0] ∧
    (mergeEntries [entP0] [entQ0]).Perm (mergeEntries [entQ0] [entP0]) :=
  ⟨C4_merge_algebra.1 [entP0] [entQ0],
   C4_merge_algebra.2 [entP0] [entQ0] (by decide) (by decide) (by decide)⟩

/-- C5 (confirmed): a failed pull — non-OK response or network error —
leaves the cache and the sync cursor exactly as they were and reports the
failure to the caller through the `onSync` callback; `performSync` itself
throws before touching the cursor. -/
theorem C5_failed_pull_preserves_state (lt : ListType) (s : Store)
    (st : SyncState) :
    syncOne lt s st SyncResp.httpErr = (s, st, [SEv.reported lt false]) ∧
    syncOne lt s st SyncResp.netErr = (s, st, [SEv.reported lt false]) ∧
    performSync st SyncResp.httpErr = Except.error () ∧
    performSync st SyncResp.netErr = Except.error () :=
  ⟨rfl, rfl, rfl, rfl⟩

/-- C6, counterexample: `syncEntriesFromCloud` performs a save with no
notification at all, and the subscription wrapper reorders (sorts by
creation date descending) what the subscriber's callback receives — both
conjuncts of the claim fail. -/
theorem C6_cex :
    ((syncEntriesFromCloud store0 ListType.backlog
        (some [entP0], false)).2.2.any SEv.isSaved = true ∧
      (syncEntriesFromCloud store0 ListType.backlog
        (some [entP0], false)).2.2.any SEv.isNotified = false) ∧
    subscriberReceives [entOld, entNew] = [entNew, entOld] ∧
    entOld ≠ entNew := by
  decide

/-- C6 (corrected): the mutation path notifies after its save, delivering to
every registered listener, in registration order, exactly the record set
re-loaded from storage after the save; but `saveEntries` itself does not
notify (the cloud-sync save emits no notification), and the subscription
wrapper sorts what the subscriber's callback receives by creation date,
newest first. -/
theorem C6_notify_after_mutation_save (ls : List Nat) (s : Store)
    (es : List MediaEntry) (lt : ListType) (draft : EntryDraft)
    (en : MediaEntry) :
    loadEntries (saveEntries s es lt) lt = es ∧
    (notifyListeners ls (saveEntries s es lt) lt).map Prod.fst = ls ∧
    (∀ pr ∈ notifyListeners ls (saveEntries s es lt) lt, pr.2 = es) ∧
    (addEntry draft (some en) s).2.2 =
      [SEv.remoteCreate, SEv.saved draft.list,
        SEv.notified draft.list (loadEntries s draft.list ++ [en])] ∧
    (syncEntriesFromCloud s lt (some es, false)).2.2 = [SEv.saved lt] ∧
    (subscriberReceives es).Perm es ∧
    (subscriberReceives es).Pairwise
      (fun a b => b.createdAt ≤ a.createdAt) := by
  have hfst : (notifyListeners ls (saveEntries s es lt) lt).map Prod.fst
      = ls := by
    induction ls with
    | nil => rfl
    | cons c cs ih =>
        show Prod.fst (c, loadEntries (saveEntries s es lt) lt) ::
          (notifyListeners cs (saveEntries s es lt) lt).map Prod.fst = c :: cs
        rw [ih]
  refine ⟨load_save s es lt, hfst, ?_,
    by simp [addEntry, load_save], rfl,
    perm_sortByCreatedDesc es, pairwise_sortByCreatedDesc es⟩
  intro pr hpr
  rcases List.mem_map.1 hpr with ⟨c, _, rfl⟩
  exact load_save s es lt

/-- C6, witness: on a concrete store and listener registry, the registered
listener receives exactly the saved entry set. -/
theorem C6_witness :
    ((0, [entOld, entNew]) : Nat × List MediaEntry) ∈
      notifyListeners [0]
        (saveEntries store0 [entOld, entNew] ListType.backlog)
        ListType.backlog ∧
    ((0, [entOld, entNew]) : Nat × List MediaEntry).2 = [entOld, entNew] :=
  ⟨by decide,
   (C6_notify_after_mutation_save [0] store0 [entOld, entNew]
      ListType.backlog draft0 entSrv).2.2.1 _ (by decide)⟩

/-- C7, counterexample: a pull whose response repeats the already-cached
record leaves the cache contents exactly unchanged, yet the synced
notification event is still dispatched — notification is not conditioned on
the merge changing anything. -/
theorem C7_cex :
    (syncOne ListType.backlog storeP syncSt0
      (SyncResp.ok [entP0] "t1" false)).1 = storeP ∧
    (syncOne ListType.backlog storeP syncSt0
      (SyncResp.ok [entP0] "t1" false)).2.2.any SEv.isSynced = true := by
  decide

/-- C7 (corrected): after a successful pull, subscribers are notified iff
the response carried at least one entry or was the initial pull — not iff
the merge changed the cache; failed pulls never notify. -/
theorem C7_notify_iff_nonempty_response (lt : ListType) (s : Store)
    (st : SyncState) (entries : List MediaEntry) (t : String) (ini : Bool) :
    ((syncOne lt s st (SyncResp.ok entries t ini)).2.2.any SEv.isSynced
        = true ↔ (entries ≠ [] ∨ ini = true)) ∧
    (syncOne lt s st SyncResp.httpErr).2.2.any SEv.isSynced = false ∧
    (syncOne lt s st SyncResp.netErr).2.2.any SEv.isSynced = false := by
  refine ⟨?_, rfl, rfl⟩
  by_cases h : 0 < entries.length ∨ ini = true
  · have h' : entries ≠ [] ∨ ini = true := by
      rcases h with h1 | h2
      · exact Or.inl (List.ne_nil_of_length_pos h1)
      · exact Or.inr h2
    simp [syncOne, performSync, h, h', SEv.isSynced]
  · have h1 : entries = [] := by
      rcases Nat.eq_zero_or_pos entries.length with hz | hp
      · exact List.eq_nil_of_length_eq_zero hz
      · exact absurd (Or.inl hp) h
    have h2 : ini = false := by
      cases ini
      · rfl
      · exact absurd (Or.inr rfl) h
    subst h1; subst h2
    simp [syncOne, performSync, SEv.isSynced]

/-- C8, counterexample: two timer ticks with no completion in between leave
two pulls in flight — the second trigger is not dropped, so the
at-most-one-in-flight property fails. -/
theorem C8_cex :
    (runTriggers { visible := true, inFlight := 0 }
      [Trigger.timerTick, Trigger.timerTick]).inFlight = 2 ∧
    ¬ (runTriggers { visible := true, inFlight := 0 }
      [Trigger.timerTick, Trigger.timerTick]).inFlight ≤ 1 := by
  decide

/-- C8 (corrected): the sync manager has no in-flight guard: every timer
tick and every focus trigger that fires while the page is visible starts a
new pull, incrementing the in-flight count regardless of outstanding pulls,
so overlapping pulls are possible; triggers are neither dropped nor
queued based on an outstanding pull. -/
theorem C8_no_inflight_guard (st : SyncMgrState) (h : st.visible = true) :
    (stepTrigger st Trigger.timerTick).inFlight = st.inFlight + 1 ∧
    (stepTrigger st Trigger.focus).inFlight = st.inFlight + 1 := by
  simp [stepTrigger, h]

/-- C8, witness: a tick while one pull is already outstanding starts a
second one. -/
theorem C8_witness :
    (stepTrigger { visible := true, inFlight := 1 }
      Trigger.timerTick).inFlight = 1 + 1 :=
  (C8_no_inflight_guard { visible := true, inFlight := 1 } rfl).1

/-- C9 (confirmed): `loadEntries` is a total function — it never throws —
and an absent or unparsable persisted payload loads as the empty set, while
a parsable payload loads as the stored entry array. -/
theorem C9_load_never_throws (s : Store) (lt : ListType) :
    (getPayload s lt = Payload.absent → loadEntries s lt = []) ∧
    (getPayload s lt = Payload.corrupt → loadEntries s lt = []) ∧
    (∀ es, getPayload s lt = Payload.good es → loadEntries s lt = es) := by
  refine ⟨?_, ?_, ?_⟩
  · intro h
    simp [loadEntries, h]
  · intro h
    simp [loadEntries, h]
  · intro es h
    simp [loadEntries, h]

/-- C9, witness: a concrete store with an unparsable backlog payload loads
as the empty set. -/
theorem C9_witness :
    getPayload storeC ListType.backlog = Payload.corrupt ∧
    loadEntries storeC ListType.backlog = [] :=
  ⟨rfl, (C9_load_never_throws storeC ListType.backlog).2.1 rfl⟩

/-- C10 (confirmed): when the two versions of an identifier present on both
sides carry equal timestamps (the `createdAt` values the merge compares),
the merge keeps the local, first-argument version — the remote version wins
only with a strictly greater timestamp. -/
theorem C10_merge_tie_keeps_local {A B : List MediaEntry}
    (hA : (ids A).Nodup) (hB : (ids B).Nodup) {i : String}
    (a b : MediaEntry) (ha : a ∈ A) (hai : a.id = i) (hb : b ∈ B)
    (hbi : b.id = i) (heq : a.createdAt = b.createdAt) :
    findById i (mergeEntries A B) = some a := by
  have hfa : findById i A = some a := hai ▸ findById_eq_some_of_mem hA ha
  have hfb : findById i B = some b := hbi ▸ findById_eq_some_of_mem hB hb
  rw [findById_mergeEntries hA hB i, hfa, hfb]
  simp [heq]

/-- C10, witness: two concrete versions of `r1` with equal `createdAt`; the
merge keeps the local one although the remote one was modified later. -/
theorem C10_witness :
    findById "r1" (mergeEntries [entA1] [entB3]) = some entA1 :=
  C10_merge_tie_keeps_local (by decide) (by decide) entA1 entB3
    (by decide) (by decide) (by decide) (by decide) (by decide)

end MediaTracker
